import Mathlib

/-!
Shallow embedding of the remote-execution provisioning engine
(`remote_executor.py`): the line-oriented templating substitution engine,
the script bundler that serializes files as remote `echo` commands, the
directory content fingerprinter, the lifecycle `diff` decision, and the
connection retry loop of `execute_remotely`.

Text is modelled as `List Char`; file contents are the character
sequences read from disk.  Fallible code (the `assert` inside
`apply_substitutions`) is modelled with `Option`/an explicit result
type.  The SHA-256 digest itself is treated as a parameter
`sha : List Char → String`: every claim about the fingerprint concerns
only which bytes are fed to the accumulator, never the compression
function.
-/

/-- Python `\s` / `str.rstrip` whitespace on the ASCII range:
space, tab, newline, carriage return, vertical tab, form feed. -/
def isPySpace (c : Char) : Bool :=
  c = ' ' || c = '\t' || c = '\n' || c = '\r' || c = Char.ofNat 11 || c = Char.ofNat 12

/-- Python `str.rstrip()`: remove trailing whitespace. -/
def rstrip (l : List Char) : List Char :=
  (l.reverse.dropWhile isPySpace).reverse

/-- Coerce a Lean string literal to the `List Char` text representation. -/
def s2l (s : String) : List Char := s.data

/-- Python `value.split("\n")` (`remote_executor.py` line 522): always at
least one piece; a trailing newline yields a trailing empty piece. -/
def splitOnNl : List Char → List (List Char)
  | [] => [[]]
  | c :: s =>
    match splitOnNl s with
    | [] => [[c]]
    | h :: t => if c = '\n' then [] :: h :: t else (c :: h) :: t

/-- Python text-mode line iteration (`for original_line in infile`,
line 483): split keeping each terminating newline; the final line may
lack one; an empty file yields no lines. -/
def splitLines : List Char → List (List Char)
  | [] => []
  | c :: s =>
    if c = '\n' then ['\n'] :: splitLines s
    else
      match splitLines s with
      | [] => [[c]]
      | h :: t => (c :: h) :: t

/-- The escaping of line 485: `replace("\\", "\\\\").replace("'", "\\'")`
(each backslash doubled, then each single quote preceded by a backslash;
the two sequential replaces act independently per character). -/
def escapeChars : List Char → List Char
  | [] => []
  | c :: s =>
    (if c = '\\' then ['\\', '\\']
     else if c = '\'' then ['\\', '\'']
     else [c]) ++ escapeChars s

/-- Value placed between `$'` and `'` for one output line (line 485):
`line.rstrip().replace("\\", "\\\\").replace("'", "\\'")`. -/
def cleanLine (l : List Char) : List Char := escapeChars (rstrip l)

/-- Shell ANSI-C quoting `$'...'` decoding, restricted to the escape
sequences that can occur here (`\\`, `\'`, `\n`, `\t`; an unrecognized
escape keeps the backslash, as bash does).  Output of `escapeChars` only
ever contains `\\` and `\'`, so this subset is exact for our inputs. -/
def ansiDecode : List Char → List Char
  | [] => []
  | c :: s =>
    if c = '\\' then
      match s with
      | [] => [c]
      | d :: s' =>
        if d = '\\' then '\\' :: ansiDecode s'
        else if d = '\'' then '\'' :: ansiDecode s'
        else if d = 'n' then '\n' :: ansiDecode s'
        else if d = 't' then '\t' :: ansiDecode s'
        else c :: d :: ansiDecode s'
    else c :: ansiDecode s

/-- Locate the closing `}}` of a lazy `(.+?)\}\}` group: the smallest
split `s = key ++ "}}" ++ rest` with `key` nonempty and free of
newlines (regex `.` does not cross lines).  Returns `(key, rest)`. -/
def findClose : List Char → Option (List Char × List Char)
  | [] => none
  | c :: s =>
    if c = '\n' then none
    else if s.take 2 = ['}', '}'] then some ([c], s.drop 2)
    else (findClose s).map (fun p => (c :: p.1, p.2))

/-- Substitution maps: the innermost Python `Dict[str, str]`
(placeholder name to replacement value). -/
abbrev SubMap := List (List Char × List Char)

/-- Per-file substitution table: Python `Dict[str, Dict[str, str]]`
keyed by file path relative to the script folder. -/
abbrev FileSubs := List (List Char × SubMap)

/-- Python `dict.get`: the value stored under a key, if any. -/
def dictGet {β : Type} (d : List (List Char × β)) (k : List Char) : Option β :=
  (d.find? (fun p => decide (p.1 = k))).map (fun p => p.2)

/-- Keys of a dict model, used to realize Python dict equality. -/
def dictKeys {β : Type} (d : List (List Char × β)) : List (List Char) :=
  d.map (fun p => p.1)

/-- Python `==` on `Dict[str, str]`: same value under every key of
either dict (insertion order irrelevant). -/
def subMapEq (a b : SubMap) : Bool :=
  (dictKeys a ++ dictKeys b).all (fun k => decide (dictGet a k = dictGet b k))

/-- Python `==` on `Dict[str, Dict[str, str]]`. -/
def fileSubsEq (a b : FileSubs) : Bool :=
  (dictKeys a ++ dictKeys b).all (fun k =>
    match dictGet a k, dictGet b k with
    | none, none => true
    | some x, some y => subMapEq x y
    | _, _ => false)

/-- One pass of `SIMPLE_SUBSTITUTION_REGEX.sub` (line 527): scan left to
right; at `{{`, find the lazy closing `}}`; replace the token by the
mapped value (empty when the key is absent) and continue after it; when
no closing exists, advance one character, as `re.sub` does.  Fuel makes
the recursion structural; it is initialized to the list length, which
every recursive call strictly dominates. -/
def simpleSubGo (subs : SubMap) : Nat → List Char → List Char
  | 0, l => l
  | _ + 1, [] => []
  | fuel + 1, c :: s =>
    if c = '{' ∧ s.head? = some '{' then
      match findClose s.tail with
      | some (k, rest) => ((dictGet subs k).getD []) ++ simpleSubGo subs fuel rest
      | none => c :: simpleSubGo subs fuel s
    else c :: simpleSubGo subs fuel s

/-- Python `SIMPLE_SUBSTITUTION_REGEX.sub(lambda m: subs.get(key, ""), line)`. -/
def simpleSub (subs : SubMap) (l : List Char) : List Char :=
  simpleSubGo subs l.length l

/-- The `apply_substitutions` function (lines 499-530).  `none` models
the `AssertionError` raised when the whole-line branch finds a key that
is missing from the substitution map.  An empty map (Python falsy,
covering both `None` and `{}`) returns the line unchanged.  The
whole-line branch fires when `INDENTATION_PRESERVED_REGEX`
(`^(\s*)\{\{(.+?)\}\}`) matches a prefix of the line. -/
def apply_substitutions (line : List Char) (subs : SubMap) :
    Option (List (List Char)) :=
  if subs.isEmpty then some [line]
  else
    let indent := line.takeWhile isPySpace
    let rest := line.dropWhile isPySpace
    if rest.head? = some '{' ∧ rest.tail.head? = some '{' then
      match findClose rest.tail.tail with
      | some (k, _) =>
        match dictGet subs k with
        | some v => some ((splitOnNl v).map (fun sub => indent ++ sub))
        | none => none
      | none => some [simpleSub subs line]
    else some [simpleSub subs line]

/-! ## Script bundler: serialized remote commands -/

/-- Commands written into the single-file script, one constructor per
shell line shape emitted by `execute_remotely` and the two
`write_echo_commands_*` helpers. -/
inductive Cmd where
  | cdUsrLocalSrc
  | marker (n : Nat)
  | mkdirP (path : List Char)
  | echoAppend (payload : List Char) (path : List Char)
  | chmodX (path : List Char)
  | echoFinished (path : List Char)
  | duSh (path : List Char)
  | cdInto (path : List Char)
  | bashRun (entry : String)
  | cdUp
  | chmod400 (path : List Char)
  | sshWaitLoop (key : List Char) (host : String)
  | sftpPutDir (key : List Char) (host : String) (dir : List Char)
  | sshRunEntry (key : List Char) (host : String) (dir : List Char) (entry : String)
  | rmRf (path : List Char)
  | rmF (path : List Char)
deriving DecidableEq

/-- Python `os.path.join` restricted to the shapes used here (second
component empty keeps the meaning of joining with the empty path and
then the file name). -/
def pathJoin (a b : List Char) : List Char :=
  if a = [] then b else if b = [] then a else a ++ '/' :: b

/-- The echo commands for the lines of one file (lines 482-486): each
source line is run through `apply_substitutions`, and each resulting
line is cleaned and emitted as an append-to-file echo. -/
def linesCmds (subs : SubMap) (path : List Char) :
    List (List Char) → Option (List Cmd)
  | [] => some []
  | l :: ls => do
    let outs ← apply_substitutions l subs
    let rest ← linesCmds subs path ls
    pure ((outs.map (fun o => Cmd.echoAppend (cleanLine o) path)) ++ rest)

/-- The `write_echo_commands_for_file` function (lines 471-492):
emit the echo commands for every line, then `chmod +x` when
`mark_executable` (default true), then the two diagnostics. -/
def write_echo_commands_for_file (content : List Char)
    (echo_file_path : List Char) (mark_executable : Bool) (subs : SubMap) :
    Option (List Cmd) :=
  (linesCmds subs echo_file_path (splitLines content)).map (fun cs =>
    cs ++ (if mark_executable then [Cmd.chmodX echo_file_path] else [])
      ++ [Cmd.echoFinished echo_file_path, Cmd.duSh echo_file_path])

/-- Remote path of a staged file: `os.path.join(echo_path,
relative_root if relative_root != "." else "", file)` (lines 454-456). -/
def echoFilePath (echoPath relRoot name : List Char) : List Char :=
  pathJoin (pathJoin echoPath (if relRoot = ['.'] then [] else relRoot)) name

/-- Substitution-table key of a staged file: `os.path.join(relative_root
if relative_root != "." else "", file)` (lines 459-461). -/
def normRel (relRoot name : List Char) : List Char :=
  pathJoin (if relRoot = ['.'] then [] else relRoot) name

/-- One directory level of an `os.walk` traversal: the root's path
relative to the bundle (`"."` for the bundle root itself) and the
regular files directly inside it, in traversal order, with contents. -/
structure WalkEntry where
  relRoot : List Char
  files : List (List Char × List Char)

/-- A script bundle as seen by `os.walk`: the walk entries in traversal
order (the bundle root first). -/
abbrev ScriptDir := List WalkEntry

/-- Commands for the files of one walk entry (lines 452-468): each file
is staged with the default `mark_executable=True` and the substitution
map looked up under its normalized relative path (`None`, modelled as
the empty map, when absent). -/
def filesCmds (fsubs : FileSubs) (echoPath relRoot : List Char) :
    List (List Char × List Char) → Option (List Cmd)
  | [] => some []
  | f :: rest => do
    let cs ← write_echo_commands_for_file f.2 (echoFilePath echoPath relRoot f.1) true
      ((dictGet fsubs (normRel relRoot f.1)).getD [])
    let rs ← filesCmds fsubs echoPath relRoot rest
    pure (cs ++ rs)

/-- Commands for one walk entry (lines 445-468): a `mkdir -p` for every
non-root level, then its files. -/
def folderEntryCmds (fsubs : FileSubs) (echoPath : List Char)
    (e : WalkEntry) : Option (List Cmd) := do
  let fcs ← filesCmds fsubs echoPath e.relRoot e.files
  pure ((if e.relRoot = ['.'] then []
         else [Cmd.mkdirP (pathJoin echoPath e.relRoot)]) ++ fcs)

/-- Commands for a whole walk, entry by entry. -/
def entriesCmds (fsubs : FileSubs) (echoPath : List Char) :
    ScriptDir → Option (List Cmd)
  | [] => some []
  | e :: es => do
    let a ← folderEntryCmds fsubs echoPath e
    let b ← entriesCmds fsubs echoPath es
    pure (a ++ b)

/-- The `write_echo_commands_for_folder` function (lines 435-468):
`mkdir -p` for the target root, then the walk. -/
def write_echo_commands_for_folder (d : ScriptDir) (echoPath : List Char)
    (fsubs : FileSubs) : Option (List Cmd) :=
  (entriesCmds fsubs echoPath d).map (fun cs => Cmd.mkdirP echoPath :: cs)

/-- Executing the emitted command list against one remote path, starting
from an absent (empty) file: each `echo $'payload' >> path` appends the
ANSI-C decoding of the payload plus the newline `echo` adds; every other
command leaves the file alone. -/
def runCmdsOn (path : List Char) : List Cmd → List Char
  | [] => []
  | Cmd.echoAppend payload p :: rest =>
    (if p = path then ansiDecode payload ++ ['\n'] else []) ++ runCmdsOn path rest
  | _ :: rest => runCmdsOn path rest

/-- Content delivered at `path` when a single file is staged through
`write_echo_commands_for_file` and its commands are executed. -/
def deliveredOpt (content path : List Char) (subs : SubMap) : Option (List Char) :=
  (write_echo_commands_for_file content path true subs).map (runCmdsOn path)

/-- What the echo serialization actually reproduces of a substitution-free
file: every line with its trailing whitespace removed and a newline
appended. -/
def normalizeContent (content : List Char) : List Char :=
  ((splitLines content).map (fun l => rstrip l ++ ['\n'])).flatten

/-! ## Content fingerprinter -/

/-- Files of a bundle in `os.walk` traversal order (lines 428-429). -/
def dirFiles (d : ScriptDir) : List (List Char × List Char) :=
  (d.map (fun e => e.files)).flatten

/-- Incremental hash accumulator: `hashlib.sha256()` fed by `update`. -/
structure Hasher where
  data : List Char

/-- The `hasher.update(f.read())` step: append the file's raw bytes. -/
def Hasher.update (h : Hasher) (bs : List Char) : Hasher := ⟨h.data ++ bs⟩

/-- The final `hasher.hexdigest()`: the digest function applied to all
accumulated bytes.  `sha` abstracts SHA-256 itself. -/
def Hasher.hexdigest (sha : List Char → String) (h : Hasher) : String :=
  sha h.data

/-- The `hash_directory` function (lines 425-432): walk the directory
and feed each file's raw content into one accumulator.  File names and
directory structure are never fed to the hasher. -/
def hash_directory (sha : List Char → String) (d : ScriptDir) : String :=
  Hasher.hexdigest sha ((dirFiles d).foldl (fun h f => h.update f.2) ⟨[]⟩)

/-- Concatenated file contents of a bundle in traversal order. -/
def dirStream (d : ScriptDir) : List Char :=
  ((dirFiles d).map (fun f => f.2)).flatten

/-- Combined fingerprint of bundle plus optional shared bundle
(lines 185-187 and 227-230): the shared digest is appended after a
`"+"` separator, not mixed into the same accumulator. -/
def full_hash (sha : List Char → String) (fs : String → ScriptDir)
    (script_name : String) (shared : Option String) : String :=
  match shared with
  | none => hash_directory sha (fs script_name)
  | some s => hash_directory sha (fs script_name) ++ "+" ++ hash_directory sha (fs s)

/-! ## Lifecycle controller: diff and execute_remotely -/

/-- The `_RemoteExecutionOutputs` record persisted after a successful
execution. -/
structure RemoteExecutionOutputs where
  stdout : String
  stderr : String
  script_name : String
  file_substitutions : FileSubs
  script_hash : String
  private_key : String
  host : String
  bastion : Option String
  shared_script_name : Option String

/-- The `_RemoteExecutionInputs` of a new evaluation. -/
structure RemoteExecutionInputs where
  script_name : String
  file_substitutions : FileSubs
  host : String
  private_key : String
  bastion : Option String
  shared_script_name : Option String

/-- The `pulumi.dynamic.DiffResult` fields set by `diff`: when no field
differs only `changes=False` is returned (modelled with the default
empty/false remaining fields). -/
structure DiffResult where
  changes : Bool
  replaces : List String
  delete_before_replace : Bool
deriving DecidableEq

/-- The `RemoteExecutionProvider.diff` method (lines 182-212): recompute
the fingerprint over the new bundle (plus shared bundle when named),
collect the differing field names in order, and when any differ signal a
replacement with `delete_before_replace = (olds["host"] == news["host"])`. -/
def diffReplaces (sha : List Char → String) (fs : String → ScriptDir)
    (olds : RemoteExecutionOutputs) (news : RemoteExecutionInputs) : List String :=
  (if olds.script_name ≠ news.script_name then ["script_name"] else [])
  ++ (if ¬ fileSubsEq olds.file_substitutions news.file_substitutions
      then ["file_substitutions"] else [])
  ++ (if olds.script_hash ≠ full_hash sha fs news.script_name news.shared_script_name
      then ["script_hash"] else [])
  ++ (if olds.host ≠ news.host then ["host"] else [])
  ++ (if olds.bastion ≠ news.bastion then ["bastion"] else [])

/-- Continuation of `diff`: no differing field means `changes=False`
(remaining fields at their defaults); otherwise a replacement for the
collected fields with `delete_before_replace = (olds["host"] ==
news["host"])` (line 211). -/
def diff (sha : List Char → String) (fs : String → ScriptDir)
    (olds : RemoteExecutionOutputs) (news : RemoteExecutionInputs) : DiffResult :=
  if (diffReplaces sha fs olds news).isEmpty then ⟨false, [], false⟩
  else ⟨true, diffReplaces sha fs olds news, decide (olds.host = news.host)⟩

/-- Result of `execute_remotely`: an exception propagated, the implicit
`None` of a fallen-through retry loop, or the outputs record. -/
inductive ExecResult where
  | raised
  | noResult
  | ok (outs : RemoteExecutionOutputs)

/-- Observable outcome of one `execute_remotely` call: the result, how
many connection attempts were made, the sleep durations performed (one
entry of 2 seconds per failed attempt), and whether any remote command
was executed. -/
structure ExecOutcome where
  result : ExecResult
  attempts : Nat
  sleeps : List Nat
  remoteExecuted : Bool

/-- The `for _ in range(150)` connection loop (lines 293-333):
`conn i` tells whether attempt `i` (0-based) connects; a failure sleeps
2 seconds and continues; a success uploads and runs the script and
returns the outputs.  Arguments: fuel (remaining iterations) and the
index of the next attempt. -/
def retryLoop (conn : Nat → Bool) (outs : RemoteExecutionOutputs) :
    Nat → Nat → Option RemoteExecutionOutputs × Nat × List Nat
  | 0, _ => (none, 0, [])
  | n + 1, i =>
    if conn i then (some outs, 1, [])
    else
      let r := retryLoop conn outs n (i + 1)
      (r.1, r.2.1 + 1, 2 :: r.2.2)

/-- Assembly of the single-file script (lines 232-291): header, main
bundle, optional shared bundle under `shared`, then either the direct
entry invocation or the jump-host sequence (key staged with
`mark_executable=False`, inner ssh wait loop, sftp upload, inner
entry invocation), and the cleanup lines. -/
def buildSingleFileScript (fs : String → ScriptDir) (readF : String → List Char)
    (remote_dir key_file : List Char) (script_name : String) (fsubs : FileSubs)
    (host : String) (private_key : String)
    (bastion shared_script_name : Option String) (entrypoint : String) :
    Option (List Cmd) := do
  let main ← write_echo_commands_for_folder (fs script_name) remote_dir fsubs
  let sh ← match shared_script_name with
    | none => some []
    | some s =>
        write_echo_commands_for_folder (fs s) (pathJoin remote_dir (s2l ("shared"))) fsubs
  let tail ← match bastion with
    | none => some [Cmd.cdInto remote_dir, Cmd.bashRun entrypoint, Cmd.cdUp,
        Cmd.rmRf remote_dir]
    | some _ => do
      let keyCmds ← write_echo_commands_for_file (readF private_key) key_file false []
      some (keyCmds ++ [Cmd.chmod400 key_file, Cmd.marker 1,
        Cmd.sshWaitLoop key_file host, Cmd.sftpPutDir key_file host remote_dir,
        Cmd.marker 2, Cmd.sshRunEntry key_file host remote_dir entrypoint,
        Cmd.marker 3, Cmd.rmRf remote_dir, Cmd.rmF key_file])
  pure ([Cmd.cdUsrLocalSrc, Cmd.marker 0] ++ main ++ sh ++ tail)

/-- The `execute_remotely` method (lines 214-333).  The fingerprint is
computed first; the script is assembled (an assertion failure inside
templating propagates as `raised`); then the connection loop runs.
`conn` abstracts reachability of the first hop per attempt; `remoteOut`
abstracts the stdout/stderr captured from the remote entry execution;
`remote_dir` and `key_file` abstract the random staging names.  The
returned record omits `shared_script_name` exactly as the source dict
literal does. -/
def execute_remotely (sha : List Char → String) (fs : String → ScriptDir)
    (readF : String → List Char) (conn : Nat → Bool) (remoteOut : String × String)
    (remote_dir key_file : List Char)
    (script_name : String) (file_substitutions : FileSubs) (host : String)
    (private_key : String) (bastion : Option String)
    (shared_script_name : Option String) (entrypoint : String) : ExecOutcome :=
  let dirhash := full_hash sha fs script_name shared_script_name
  match buildSingleFileScript fs readF remote_dir key_file script_name
      file_substitutions host private_key bastion shared_script_name entrypoint with
  | none => ⟨ExecResult.raised, 0, [], false⟩
  | some _cmds =>
    let outs : RemoteExecutionOutputs :=
      { stdout := remoteOut.1
        stderr := remoteOut.2
        script_name := script_name
        file_substitutions := file_substitutions
        script_hash := dirhash
        private_key := private_key
        host := host
        bastion := bastion
        shared_script_name := none }
    match retryLoop conn outs 150 0 with
    | (none, a, s) => ⟨ExecResult.noResult, a, s, false⟩
    | (some o, a, s) => ⟨ExecResult.ok o, a, s, true⟩

/-! ## Concrete fixtures used to instantiate the claims -/

/-- Digest fixture: a constant digest function. -/
def shaEx : List Char → String := fun _ => "H"

/-- Digest fixture: the identity, exposing exactly the bytes fed in. -/
def shaId : List Char → String := fun l => String.mk l

/-- Filesystem fixture: every path holds an empty bundle. -/
def fsEx : String → ScriptDir := fun _ => []

/-- A stored execution record. -/
def oldsEx : RemoteExecutionOutputs :=
  { stdout := ""
    stderr := ""
    script_name := "scripts/app"
    file_substitutions := []
    script_hash := "H"
    private_key := "key.pem"
    host := "10.0.0.1"
    bastion := none
    shared_script_name := none }

/-- New inputs identical to `oldsEx` in every compared field. -/
def newsEx : RemoteExecutionInputs :=
  { script_name := "scripts/app"
    file_substitutions := []
    host := "10.0.0.1"
    private_key := "key.pem"
    bastion := none
    shared_script_name := none }

/-- New inputs differing from `oldsEx` only in the host. -/
def newsHostEx : RemoteExecutionInputs := { newsEx with host := "10.0.0.2" }

/-- New inputs differing from `oldsEx` only in the jump-host. -/
def newsBastionEx : RemoteExecutionInputs := { newsEx with bastion := some ("bastion") }

/-- A two-file bundle root whose second file is not the entrypoint. -/
def dirEx : ScriptDir :=
  [⟨['.'], [(s2l ("main.sh"), s2l ("echo hi\n")), (s2l ("config.txt"), s2l ("k=v\n"))]⟩]

/-- The commands the bundler emits for `dirEx`. -/
def folderCsEx : List Cmd :=
  (write_echo_commands_for_folder dirEx (s2l ("r")) []).getD []

/-- The commands emitted for a key file staged with mark_executable
false. -/
def fileCsEx : List Cmd :=
  (write_echo_commands_for_file (s2l ("KEYDATA\n")) (s2l ("kf")) false []).getD []

/-- The assembled script for the direct-mode fixture execution. -/
def cmdsEx : List Cmd :=
  (buildSingleFileScript fsEx (fun _ => []) [] [] ("scripts/app") [] ("10.0.0.1")
    ("key.pem") none none ("main.sh")).getD []

/-- Outputs of the direct-mode fixture execution. -/
def outsEx : RemoteExecutionOutputs :=
  { stdout := ""
    stderr := ""
    script_name := "scripts/app"
    file_substitutions := []
    script_hash := "H"
    private_key := "key.pem"
    host := "10.0.0.1"
    bastion := none
    shared_script_name := none }

/-- Outputs of a second fixture execution with different substitutions,
host and jump-host. -/
def outsEx2 : RemoteExecutionOutputs :=
  { stdout := ""
    stderr := ""
    script_name := "scripts/app"
    file_substitutions := [(s2l ("main.sh"), [(s2l ("X"), s2l ("v"))])]
    script_hash := "H"
    private_key := "key.pem"
    host := "10.0.0.9"
    bastion := some ("bhost")
    shared_script_name := none }

/-- A one-file bundle holding the byte stream AB. -/
def dirStreamEx1 : ScriptDir := [⟨['.'], [(s2l ("a"), s2l ("AB"))]⟩]

/-- A two-file bundle holding the same byte stream AB split across two
differently named files. -/
def dirStreamEx2 : ScriptDir := [⟨['.'], [(s2l ("b"), s2l ("A")), (s2l ("c"), s2l ("B"))]⟩]

/-- Filesystem fixture mapping every path to `dirStreamEx2`. -/
def fsStreamEx : String → ScriptDir := fun _ => dirStreamEx2

/-- A stored record whose fingerprint was taken over `dirStreamEx1`
under the identity digest. -/
def oldsStreamEx : RemoteExecutionOutputs := { oldsEx with script_hash := "AB" }

/-! ## Helper lemmas -/

theorem findClose_length : ∀ (s k rest : List Char),
    findClose s = some (k, rest) → rest.length < s.length := by
  intro s
  induction s with
  | nil => intro k rest h; simp [findClose] at h
  | cons c s ih =>
    intro k rest h
    rw [findClose] at h
    by_cases hc : c = '\n'
    · simp [hc] at h
    · rw [if_neg hc] at h
      by_cases ht : s.take 2 = ['}', '}']
      · rw [if_pos ht] at h
        simp only [Option.some.injEq, Prod.mk.injEq] at h
        obtain ⟨_, hr⟩ := h
        subst hr
        simp
        omega
      · rw [if_neg ht] at h
        rcases Option.map_eq_some'.mp h with ⟨p, hp, hpe⟩
        have := ih p.1 p.2 (by rw [hp])
        have h2 : rest = p.2 := by
          have := congrArg Prod.snd hpe
          simpa using this.symm
        subst h2
        simp
        omega

theorem findClose_append : ∀ (k suf : List Char), k ≠ [] →
    (∀ c ∈ k, c ≠ '}') → (∀ c ∈ k, c ≠ '\n') →
    findClose (k ++ '}' :: '}' :: suf) = some (k, suf) := by
  intro k
  induction k with
  | nil => intro suf h; exact absurd rfl h
  | cons c k ih =>
    intro suf _ h1 h2
    rw [List.cons_append, findClose]
    rw [if_neg (h2 c (by simp))]
    cases k with
    | nil => simp
    | cons d k2 =>
      have hd : d ≠ '}' := h1 d (by simp)
      have htake : ((d :: k2) ++ '}' :: '}' :: suf).take 2 ≠ ['}', '}'] := by
        cases k2 with
        | nil => simp [hd]
        | cons e k3 => simp [hd]
      rw [if_neg htake]
      rw [ih suf (by simp) (fun x hx => h1 x (List.mem_cons_of_mem _ hx))
        (fun x hx => h2 x (List.mem_cons_of_mem _ hx))]
      rfl

theorem simpleSubGo_fuel (subs : SubMap) : ∀ (f1 : Nat) (l : List Char) (f2 : Nat),
    l.length ≤ f1 → l.length ≤ f2 → simpleSubGo subs f1 l = simpleSubGo subs f2 l := by
  intro f1
  induction f1 with
  | zero =>
    intro l f2 h1 _
    have hl : l = [] := List.length_eq_zero.mp (Nat.le_zero.mp h1)
    subst hl
    cases f2 <;> rfl
  | succ f ih =>
    intro l f2 h1 h2
    cases l with
    | nil => cases f2 <;> rfl
    | cons c s =>
      cases f2 with
      | zero => simp at h2
      | succ g =>
        have hs : s.length ≤ f := by simpa using h1
        have hs2 : s.length ≤ g := by simpa using h2
        rw [simpleSubGo, simpleSubGo]
        by_cases hc : c = '{' ∧ s.head? = some '{'
        · rw [if_pos hc, if_pos hc]
          cases hfc : findClose s.tail with
          | none => rw [ih s g hs hs2]
          | some p =>
            obtain ⟨k, rest⟩ := p
            have hlt : rest.length < s.tail.length :=
              findClose_length s.tail k rest (by rw [hfc])
            have htl : s.tail.length ≤ s.length := by cases s <;> simp
            simp only []
            rw [ih rest g (by omega) (by omega)]
        · rw [if_neg hc, if_neg hc, ih s g hs hs2]

theorem simpleSub_cons_of_ne (subs : SubMap) (c : Char) (s : List Char)
    (hc : c ≠ '{') : simpleSub subs (c :: s) = c :: simpleSub subs s := by
  rw [simpleSub, simpleSub, List.length_cons, simpleSubGo]
  rw [if_neg (by intro h; exact hc h.1)]

theorem simpleSub_nil (subs : SubMap) : simpleSub subs [] = [] := rfl

theorem simpleSub_passthrough (subs : SubMap) : ∀ (p rest : List Char),
    (∀ c ∈ p, c ≠ '{') →
    simpleSub subs (p ++ rest) = p ++ simpleSub subs rest := by
  intro p
  induction p with
  | nil => intro rest _; simp
  | cons c p ih =>
    intro rest h
    rw [List.cons_append, simpleSub_cons_of_ne subs c _ (h c (by simp))]
    rw [ih rest (fun d hd => h d (by simp [hd]))]
    rfl

theorem simpleSub_token (subs : SubMap) (k suf : List Char) (hk : k ≠ [])
    (h1 : ∀ c ∈ k, c ≠ '}') (h2 : ∀ c ∈ k, c ≠ '\n') :
    simpleSub subs ('{' :: '{' :: (k ++ '}' :: '}' :: suf))
      = (dictGet subs k).getD [] ++ simpleSub subs suf := by
  have hfc := findClose_append k suf hk h1 h2
  rw [simpleSub, List.length_cons, simpleSubGo]
  rw [if_pos (by simp)]
  simp only [List.tail_cons, hfc]
  rw [simpleSub]
  rw [simpleSubGo_fuel subs ('{' :: (k ++ '}' :: '}' :: suf)).length suf suf.length
    (by simp; omega) (by omega)]

theorem takeWhile_ws_append (p : Char → Bool) (x : Char) (hx : p x = false) :
    ∀ (ws r : List Char), (∀ c ∈ ws, p c = true) →
    (ws ++ x :: r).takeWhile p = ws := by
  intro ws
  induction ws with
  | nil => intro r _; simp [List.takeWhile_cons, hx]
  | cons c ws ih =>
    intro r h
    rw [List.cons_append, List.takeWhile_cons, h c (by simp)]
    rw [ih r (fun d hd => h d (by simp [hd]))]
    simp

theorem dropWhile_ws_append (p : Char → Bool) (x : Char) (hx : p x = false) :
    ∀ (ws r : List Char), (∀ c ∈ ws, p c = true) →
    (ws ++ x :: r).dropWhile p = x :: r := by
  intro ws
  induction ws with
  | nil => intro r _; simp [List.dropWhile_cons, hx]
  | cons c ws ih =>
    intro r h
    rw [List.cons_append, List.dropWhile_cons, h c (by simp)]
    exact ih r (fun d hd => h d (by simp [hd]))

theorem lbrace_not_space : isPySpace '{' = false := by decide

/-- Whole-line branch of `apply_substitutions` with a present key:
the output is one line per piece of the value, each prefixed with the
original leading whitespace, and everything after the token (the
trailing `tail`, newline included) is discarded. -/
theorem apply_substitutions_wholeline (subs : SubMap) (ws k tail v : List Char)
    (hsubs : subs ≠ []) (hws : ∀ c ∈ ws, isPySpace c = true)
    (hk : k ≠ []) (hk1 : ∀ c ∈ k, c ≠ '}') (hk2 : ∀ c ∈ k, c ≠ '\n')
    (hv : dictGet subs k = some v) :
    apply_substitutions (ws ++ '{' :: '{' :: (k ++ '}' :: '}' :: tail)) subs
      = some ((splitOnNl v).map (fun sub => ws ++ sub)) := by
  rw [apply_substitutions]
  rw [if_neg (by simpa [List.isEmpty_iff] using hsubs)]
  simp only [takeWhile_ws_append isPySpace '{' lbrace_not_space ws _ hws,
    dropWhile_ws_append isPySpace '{' lbrace_not_space ws _ hws]
  rw [if_pos (by simp)]
  simp only [List.tail_cons, findClose_append k tail hk hk1 hk2, hv]

/-- Whole-line branch of `apply_substitutions` with a missing key:
the assertion fails. -/
theorem apply_substitutions_wholeline_missing (subs : SubMap) (ws k tail : List Char)
    (hsubs : subs ≠ []) (hws : ∀ c ∈ ws, isPySpace c = true)
    (hk : k ≠ []) (hk1 : ∀ c ∈ k, c ≠ '}') (hk2 : ∀ c ∈ k, c ≠ '\n')
    (hv : dictGet subs k = none) :
    apply_substitutions (ws ++ '{' :: '{' :: (k ++ '}' :: '}' :: tail)) subs
      = none := by
  rw [apply_substitutions]
  rw [if_neg (by simpa [List.isEmpty_iff] using hsubs)]
  simp only [takeWhile_ws_append isPySpace '{' lbrace_not_space ws _ hws,
    dropWhile_ws_append isPySpace '{' lbrace_not_space ws _ hws]
  rw [if_pos (by simp)]
  simp only [List.tail_cons, findClose_append k tail hk hk1 hk2, hv]

/-- Inline branch of `apply_substitutions`: a line whose first character
is neither whitespace nor `{` goes through the one-line simple
substitution. -/
theorem apply_substitutions_inline (subs : SubMap) (c : Char) (s : List Char)
    (hsubs : subs ≠ []) (hc1 : isPySpace c = false) (hc2 : c ≠ '{') :
    apply_substitutions (c :: s) subs = some [simpleSub subs (c :: s)] := by
  rw [apply_substitutions]
  rw [if_neg (by simpa [List.isEmpty_iff] using hsubs)]
  simp only [List.takeWhile_cons, List.dropWhile_cons, hc1]
  rw [if_neg (by simp [hc2])]

theorem ansiDecode_cons_of_ne (c : Char) (s : List Char) (hc : c ≠ '\\') :
    ansiDecode (c :: s) = c :: ansiDecode s := by
  rw [ansiDecode.eq_def]
  simp [hc]

theorem ansiDecode_bs_bs (s : List Char) :
    ansiDecode ('\\' :: '\\' :: s) = '\\' :: ansiDecode s := by
  rw [ansiDecode.eq_def]
  simp

theorem ansiDecode_bs_quote (s : List Char) :
    ansiDecode ('\\' :: '\'' :: s) = '\'' :: ansiDecode s := by
  rw [ansiDecode.eq_def]
  simp

theorem ansiDecode_escape : ∀ (l : List Char), ansiDecode (escapeChars l) = l := by
  intro l
  induction l with
  | nil => rfl
  | cons c s ih =>
    by_cases h1 : c = '\\'
    · subst h1
      rw [escapeChars, if_pos rfl]
      rw [List.cons_append, List.cons_append, List.nil_append]
      rw [ansiDecode_bs_bs, ih]
    · by_cases h2 : c = '\''
      · subst h2
        rw [escapeChars]
        rw [if_neg (by decide), if_pos rfl]
        rw [List.cons_append, List.cons_append, List.nil_append]
        rw [ansiDecode_bs_quote, ih]
      · rw [escapeChars, if_neg h1, if_neg h2]
        rw [List.cons_append, List.nil_append]
        rw [ansiDecode_cons_of_ne c _ h1, ih]

theorem runCmdsOn_append (path : List Char) : ∀ (a b : List Cmd),
    runCmdsOn path (a ++ b) = runCmdsOn path a ++ runCmdsOn path b := by
  intro a
  induction a with
  | nil => intro b; simp [runCmdsOn]
  | cons x a ih =>
    intro b
    cases x <;> simp [runCmdsOn, ih, List.append_assoc]

theorem runCmdsOn_echo_self (path payload : List Char) (rest : List Cmd) :
    runCmdsOn path (Cmd.echoAppend payload path :: rest)
      = (ansiDecode payload ++ ['\n']) ++ runCmdsOn path rest := by
  rw [runCmdsOn, if_pos rfl]

/-- With an empty substitution map each line passes through unchanged,
so the emitted echoes are, in order, one per source line. -/
theorem linesCmds_nosubs (path : List Char) : ∀ (ls : List (List Char)),
    linesCmds [] path ls
      = some (ls.map (fun l => Cmd.echoAppend (cleanLine l) path)) := by
  intro ls
  induction ls with
  | nil => rfl
  | cons l ls ih =>
    rw [linesCmds]
    have ha : apply_substitutions l [] = some [l] := rfl
    rw [ha, ih]
    rfl

/-- Echo commands for a list of lines deliver exactly the cleaned lines,
each with the newline `echo` appends, in order. -/
theorem runCmdsOn_echoes (path : List Char) : ∀ (ls : List (List Char)),
    runCmdsOn path (ls.map (fun l => Cmd.echoAppend (cleanLine l) path))
      = (ls.map (fun l => rstrip l ++ ['\n'])).flatten := by
  intro ls
  induction ls with
  | nil => rfl
  | cons l ls ih =>
    rw [List.map_cons, runCmdsOn_echo_self, ih, List.map_cons, List.flatten_cons]
    rw [cleanLine, ansiDecode_escape]

theorem foldl_update : ∀ (fl : List (List Char × List Char)) (a : List Char),
    fl.foldl (fun h f => h.update f.2) (Hasher.mk a)
      = Hasher.mk (a ++ (fl.map (fun f => f.2)).flatten) := by
  intro fl
  induction fl with
  | nil => intro a; simp
  | cons f fl ih =>
    intro a
    rw [List.foldl_cons]
    rw [show Hasher.update (Hasher.mk a) f.2 = Hasher.mk (a ++ f.2) from rfl]
    rw [ih (a ++ f.2)]
    simp [List.append_assoc]

/-- The digest of a directory depends only on the concatenation of the
file contents in traversal order. -/
theorem hash_directory_eq_stream (sha : List Char → String) (d : ScriptDir) :
    hash_directory sha d = sha (dirStream d) := by
  rw [hash_directory, dirStream, foldl_update, Hasher.hexdigest]
  simp

theorem retryLoop_success (conn : Nat → Bool) (outs : RemoteExecutionOutputs) :
    ∀ (k n i : Nat), k < n → (∀ j, j < k → conn (i + j) = false) →
    conn (i + k) = true →
    retryLoop conn outs n i = (some outs, k + 1, List.replicate k 2) := by
  intro k
  induction k with
  | zero =>
    intro n i hn _ hc
    cases n with
    | zero => omega
    | succ m =>
      rw [retryLoop]
      rw [if_pos (by simpa using hc)]
      rfl
  | succ k ih =>
    intro n i hn hf hc
    cases n with
    | zero => omega
    | succ m =>
      have h0 : conn i = false := by simpa using hf 0 (by omega)
      rw [retryLoop, h0]
      rw [if_neg (by simp)]
      rw [ih m (i + 1) (by omega)
        (fun j hj => by
          have := hf (j + 1) (by omega)
          rwa [show i + (j + 1) = i + 1 + j by omega] at this)
        (by rwa [show i + 1 + k = i + (k + 1) by omega])]
      rfl

theorem retryLoop_fail (conn : Nat → Bool) (outs : RemoteExecutionOutputs) :
    ∀ (n i : Nat), (∀ j, j < n → conn (i + j) = false) →
    retryLoop conn outs n i = (none, n, List.replicate n 2) := by
  intro n
  induction n with
  | zero => intro i _; rfl
  | succ m ih =>
    intro i hf
    have h0 : conn i = false := by simpa using hf 0 (by omega)
    rw [retryLoop, h0]
    rw [if_neg (by simp)]
    rw [ih (i + 1) (fun j hj => by
      have := hf (j + 1) (by omega)
      rwa [show i + (j + 1) = i + 1 + j by omega] at this)]
    rfl

theorem retryLoop_some_outs (conn : Nat → Bool) (outs : RemoteExecutionOutputs) :
    ∀ (n i : Nat) (o : RemoteExecutionOutputs) (a : Nat) (s : List Nat),
    retryLoop conn outs n i = (some o, a, s) → o = outs := by
  intro n
  induction n with
  | zero => intro i o a s h; simp [retryLoop] at h
  | succ m ih =>
    intro i o a s h
    rw [retryLoop] at h
    by_cases hc : conn i
    · rw [if_pos hc] at h
      have := congrArg Prod.fst h
      simp at this
      exact this.symm
    · rw [if_neg hc] at h
      have h1 : (retryLoop conn outs m (i + 1)).1 = some o := by
        have := congrArg Prod.fst h
        simpa using this
      exact ih (i + 1) o (retryLoop conn outs m (i + 1)).2.1
        (retryLoop conn outs m (i + 1)).2.2 (by rw [← h1])

theorem subMapEq_refl (a : SubMap) : subMapEq a a = true := by
  simp [subMapEq]

theorem fileSubsEq_refl (a : FileSubs) : fileSubsEq a a = true := by
  rw [fileSubsEq, List.all_eq_true]
  intro k _
  cases dictGet a k <;> simp [subMapEq_refl]

theorem write_echo_file_chmod_mem (content path : List Char) (subs : SubMap)
    (cs : List Cmd)
    (h : write_echo_commands_for_file content path true subs = some cs) :
    Cmd.chmodX path ∈ cs := by
  rw [write_echo_commands_for_file] at h
  cases hl : linesCmds subs path (splitLines content) with
  | none => rw [hl] at h; simp at h
  | some base =>
    rw [hl] at h
    simp at h
    subst h
    simp

theorem linesCmds_shape (subs : SubMap) (path : List Char) :
    ∀ (ls : List (List Char)) (cs : List Cmd), linesCmds subs path ls = some cs →
    ∀ c ∈ cs, ∃ pl, c = Cmd.echoAppend pl path := by
  intro ls
  induction ls with
  | nil =>
    intro cs h c hc
    rw [linesCmds] at h
    simp at h
    subst h
    simp at hc
  | cons l ls ih =>
    intro cs h c hc
    rw [linesCmds] at h
    cases ha : apply_substitutions l subs with
    | none => rw [ha] at h; simp at h
    | some outs =>
      cases hr : linesCmds subs path ls with
      | none => rw [ha, hr] at h; simp at h
      | some rest =>
        rw [ha, hr] at h
        simp at h
        subst h
        rcases List.mem_append.mp hc with h1 | h2
        · rcases List.mem_map.mp h1 with ⟨o, _, ho⟩
          exact ⟨cleanLine o, ho.symm⟩
        · exact ih rest hr c h2

theorem write_echo_file_no_chmod (content path : List Char) (subs : SubMap)
    (cs : List Cmd)
    (h : write_echo_commands_for_file content path false subs = some cs) :
    ∀ q, Cmd.chmodX q ∉ cs := by
  rw [write_echo_commands_for_file] at h
  cases hl : linesCmds subs path (splitLines content) with
  | none => rw [hl] at h; simp at h
  | some base =>
    rw [hl] at h
    simp at h
    subst h
    intro q hq
    rcases List.mem_append.mp hq with h1 | h2
    · obtain ⟨pl, hpl⟩ := linesCmds_shape subs path _ base hl (Cmd.chmodX q) h1
      exact Cmd.noConfusion hpl
    · simp at h2

theorem filesCmds_chmod_mem (fsubs : FileSubs) (echoPath relRoot : List Char) :
    ∀ (files : List (List Char × List Char)) (cs : List Cmd),
    filesCmds fsubs echoPath relRoot files = some cs →
    ∀ f ∈ files, Cmd.chmodX (echoFilePath echoPath relRoot f.1) ∈ cs := by
  intro files
  induction files with
  | nil => intro cs h f hf; simp at hf
  | cons g files ih =>
    intro cs h f hf
    rw [filesCmds] at h
    cases h1 : write_echo_commands_for_file g.2 (echoFilePath echoPath relRoot g.1)
        true ((dictGet fsubs (normRel relRoot g.1)).getD []) with
    | none => rw [h1] at h; simp at h
    | some c1 =>
      cases h2 : filesCmds fsubs echoPath relRoot files with
      | none => rw [h1, h2] at h; simp at h
      | some c2 =>
        rw [h1, h2] at h
        simp at h
        subst h
        rcases List.mem_cons.mp hf with hf1 | hf2
        · subst hf1
          exact List.mem_append.mpr
            (Or.inl (write_echo_file_chmod_mem _ _ _ c1 h1))
        · exact List.mem_append.mpr (Or.inr (ih c2 h2 f hf2))

theorem entriesCmds_chmod_mem (fsubs : FileSubs) (echoPath : List Char) :
    ∀ (d : ScriptDir) (cs : List Cmd), entriesCmds fsubs echoPath d = some cs →
    ∀ e ∈ d, ∀ f ∈ e.files,
      Cmd.chmodX (echoFilePath echoPath e.relRoot f.1) ∈ cs := by
  intro d
  induction d with
  | nil => intro cs h e he; simp at he
  | cons e0 d ih =>
    intro cs h e he f hf
    rw [entriesCmds] at h
    cases h1 : folderEntryCmds fsubs echoPath e0 with
    | none => rw [h1] at h; simp at h
    | some c1 =>
      cases h2 : entriesCmds fsubs echoPath d with
      | none => rw [h1, h2] at h; simp at h
      | some c2 =>
        rw [h1, h2] at h
        simp at h
        subst h
        rcases List.mem_cons.mp he with he1 | he2
        · subst he1
          rw [folderEntryCmds] at h1
          cases h3 : filesCmds fsubs echoPath e.relRoot e.files with
          | none => rw [h3] at h1; simp at h1
          | some c3 =>
            rw [h3] at h1
            simp at h1
            subst h1
            exact List.mem_append.mpr (Or.inl (List.mem_append.mpr
              (Or.inr (filesCmds_chmod_mem fsubs echoPath e.relRoot e.files c3 h3 f hf))))
        · exact List.mem_append.mpr (Or.inr (ih c2 h2 e he2 f hf))

/-! ## Claim theorems -/

/-- Claim C2 counterexample: the line consisting of two spaces and a single
placeholder whose key Z has no entry in the (non-empty) substitution map
does not expand to the empty string — it raises an AssertionError
(modelled as `none`), refuting the claim that substitution never raises
on missing keys for every line shape. -/
theorem C2_counterexample :
    apply_substitutions (s2l ("  \x7b\x7bZ\x7d\x7d\n")) [(s2l ("Y"), s2l ("v"))]
      = none := by
  decide

/-- Claim C2 (amended): with a non-empty substitution map, a missing-key
placeholder on a line that does not take the whole-line branch (first
character neither whitespace nor an opening brace, no other brace before
the token) expands to the empty string and no error is raised; but a
line of only leading whitespace followed by a placeholder whose key is
missing raises an assertion error. -/
theorem C2_missing_key_policy (subs : SubMap) (c : Char) (p k tail ws k2 tail2 : List Char)
    (hsubs : subs ≠ [])
    (hc1 : isPySpace c = false) (hc2 : c ≠ '{') (hp : ∀ x ∈ p, x ≠ '{')
    (hk : k ≠ []) (hk1 : ∀ x ∈ k, x ≠ '}') (hk1n : ∀ x ∈ k, x ≠ '\n')
    (hmiss : dictGet subs k = none)
    (hws : ∀ x ∈ ws, isPySpace x = true)
    (hk2 : k2 ≠ []) (hk21 : ∀ x ∈ k2, x ≠ '}') (hk2n : ∀ x ∈ k2, x ≠ '\n')
    (hmiss2 : dictGet subs k2 = none) :
    apply_substitutions (c :: (p ++ '{' :: '{' :: (k ++ '}' :: '}' :: tail))) subs
      = some [c :: (p ++ simpleSub subs tail)]
    ∧ apply_substitutions (ws ++ '{' :: '{' :: (k2 ++ '}' :: '}' :: tail2)) subs
      = none := by
  constructor
  · rw [apply_substitutions_inline subs c _ hsubs hc1 hc2]
    rw [simpleSub_cons_of_ne subs c _ hc2]
    rw [simpleSub_passthrough subs p _ hp]
    rw [simpleSub_token subs k tail hk hk1 hk1n]
    rw [hmiss]
    rfl
  · exact apply_substitutions_wholeline_missing subs ws k2 tail2 hsubs hws hk2 hk21 hk2n hmiss2

/-- Claim C2 witness: concrete instantiation of the amended missing-key
policy. -/
theorem C2_missing_key_policy_witness :
    apply_substitutions ('x' :: ([] ++ '{' :: '{' :: (s2l ("Z") ++ '}' :: '}' :: []))) [(s2l ("A"), s2l ("v"))]
      = some ['x' :: ([] ++ simpleSub [(s2l ("A"), s2l ("v"))] [])]
    ∧ apply_substitutions (s2l ("  ") ++ '{' :: '{' :: (s2l ("Z") ++ '}' :: '}' :: ['\n'])) [(s2l ("A"), s2l ("v"))]
      = none :=
  C2_missing_key_policy [(s2l ("A"), s2l ("v"))] 'x' [] (s2l ("Z")) [] (s2l ("  "))
    (s2l ("Z")) ['\n'] (by decide) (by decide) (by decide) (by decide) (by decide)
    (by decide) (by decide) (by decide) (by decide) (by decide) (by decide) (by decide)
    (by decide)

/-- Claim C4: a line of leading whitespace followed by a single placeholder
token (and its newline) expands to one output line per line of the
value, each prefixed with the original leading whitespace; in
particular, the delivered content for the file holding two spaces, the
token X and a newline, with X mapped to the two-line value a, b, is
exactly two-space a newline two-space b newline. -/
theorem C4_indentation_preserved (subs : SubMap) (ws k v : List Char)
    (hsubs : subs ≠ []) (hws : ∀ c ∈ ws, isPySpace c = true)
    (hk : k ≠ []) (hk1 : ∀ c ∈ k, c ≠ '}') (hk2 : ∀ c ∈ k, c ≠ '\n')
    (hv : dictGet subs k = some v) :
    apply_substitutions (ws ++ '{' :: '{' :: (k ++ '}' :: '}' :: ['\n'])) subs
      = some ((splitOnNl v).map (fun sub => ws ++ sub))
    ∧ deliveredOpt (s2l ("  \x7b\x7bX\x7d\x7d\n")) (s2l ("f")) [(s2l ("X"), s2l ("a\nb"))]
      = some (s2l ("  a\n  b\n")) := by
  constructor
  · exact apply_substitutions_wholeline subs ws k ['\n'] v hsubs hws hk hk1 hk2 hv
  · decide

/-- Claim C4 witness: the concrete two-line expansion of the round-trip
example. -/
theorem C4_indentation_preserved_witness :
    apply_substitutions (s2l ("  ") ++ '{' :: '{' :: (s2l ("X") ++ '}' :: '}' :: ['\n'])) [(s2l ("X"), s2l ("a\nb"))]
      = some ((splitOnNl (s2l ("a\nb"))).map (fun sub => s2l ("  ") ++ sub))
    ∧ deliveredOpt (s2l ("  \x7b\x7bX\x7d\x7d\n")) (s2l ("f")) [(s2l ("X"), s2l ("a\nb"))]
      = some (s2l ("  a\n  b\n")) :=
  C4_indentation_preserved [(s2l ("X"), s2l ("a\nb"))] (s2l ("  ")) (s2l ("X"))
    (s2l ("a\nb")) (by decide) (by decide) (by decide) (by decide) (by decide) (by decide)

/-- Claim C9: for a line of optional leading whitespace followed by a
placeholder token, the whole-line branch is taken regardless of what
follows the token, so the result is independent of the trailing text
(which is discarded); for a present key the output is the indented
value lines only. -/
theorem C9_trailing_text_discarded (subs : SubMap) (ws k v tail1 tail2 : List Char)
    (hsubs : subs ≠ []) (hws : ∀ c ∈ ws, isPySpace c = true)
    (hk : k ≠ []) (hk1 : ∀ c ∈ k, c ≠ '}') (hk2 : ∀ c ∈ k, c ≠ '\n')
    (hv : dictGet subs k = some v) :
    apply_substitutions (ws ++ '{' :: '{' :: (k ++ '}' :: '}' :: tail1)) subs
      = apply_substitutions (ws ++ '{' :: '{' :: (k ++ '}' :: '}' :: tail2)) subs
    ∧ apply_substitutions (ws ++ '{' :: '{' :: (k ++ '}' :: '}' :: tail1)) subs
      = some ((splitOnNl v).map (fun sub => ws ++ sub)) := by
  have h1 := apply_substitutions_wholeline subs ws k tail1 v hsubs hws hk hk1 hk2 hv
  have h2 := apply_substitutions_wholeline subs ws k tail2 v hsubs hws hk hk1 hk2 hv
  exact ⟨h1.trans h2.symm, h1⟩

/-- Claim C9 witness: the line of two spaces, token X and the trailing text
space-r-e-s-t substitutes to the same single line as the token alone —
the trailer is discarded. -/
theorem C9_trailing_text_discarded_witness :
    apply_substitutions (s2l ("  ") ++ '{' :: '{' :: (s2l ("X") ++ '}' :: '}' :: s2l (" rest"))) [(s2l ("X"), s2l ("v"))]
      = apply_substitutions (s2l ("  ") ++ '{' :: '{' :: (s2l ("X") ++ '}' :: '}' :: [])) [(s2l ("X"), s2l ("v"))]
    ∧ apply_substitutions (s2l ("  ") ++ '{' :: '{' :: (s2l ("X") ++ '}' :: '}' :: s2l (" rest"))) [(s2l ("X"), s2l ("v"))]
      = some ((splitOnNl (s2l ("v"))).map (fun sub => s2l ("  ") ++ sub)) :=
  C9_trailing_text_discarded [(s2l ("X"), s2l ("v"))] (s2l ("  ")) (s2l ("X"))
    (s2l ("v")) (s2l (" rest")) [] (by decide) (by decide) (by decide) (by decide)
    (by decide) (by decide)

/-- Claim C8 counterexample: a file whose single line carries a trailing
space is not reproduced byte-for-byte even with no substitutions — the
delivered content has the trailing space stripped. -/
theorem C8_counterexample :
    deliveredOpt (s2l ("x \n")) (s2l ("f")) [] = some (s2l ("x\n"))
    ∧ s2l ("x\n") ≠ s2l ("x \n") := by
  decide

/-- Claim C8 (amended): for a file with no applicable substitutions,
executing the serialized commands reproduces the content with each
line's trailing whitespace stripped and a terminating newline appended
(hence byte-for-byte exactly when every line already has that shape). -/
theorem C8_delivered_content (content path : List Char) :
    deliveredOpt content path [] = some (normalizeContent content) := by
  rw [deliveredOpt, write_echo_commands_for_file, linesCmds_nosubs]
  rw [Option.map_some', Option.map_some']
  rw [runCmdsOn_append, runCmdsOn_append, runCmdsOn_echoes]
  rw [if_pos rfl]
  simp [runCmdsOn, normalizeContent]

theorem mem_ite_singleton {α : Type} {x y : α} {c : Prop} [Decidable c]
    (h : x ∈ (if c then [y] else [])) : c ∧ x = y := by
  by_cases hc : c
  · rw [if_pos hc] at h
    simp at h
    exact ⟨hc, h⟩
  · rw [if_neg hc] at h
    simp at h

/-- Claim C1 counterexample: stored record and new inputs agreeing on every
compared field except the host.  The code signals a replacement but
with `delete_before_replace = false` — the new host is created first —
refuting the claimed delete-before-create ordering for host changes. -/
theorem C1_counterexample :
    oldsEx.host ≠ newsHostEx.host
    ∧ oldsEx.script_name = newsHostEx.script_name
    ∧ fileSubsEq oldsEx.file_substitutions newsHostEx.file_substitutions = true
    ∧ oldsEx.script_hash
      = full_hash shaEx fsEx newsHostEx.script_name newsHostEx.shared_script_name
    ∧ oldsEx.bastion = newsHostEx.bastion
    ∧ (diff shaEx fsEx oldsEx newsHostEx).changes = true
    ∧ (diff shaEx fsEx oldsEx newsHostEx).delete_before_replace = false := by
  decide

/-- Claim C1 (amended): the diff decision table with the orderings the code
actually implements — no compared field differing gives no replacement;
a host change gives a replacement with delete_before_replace = false
(create first on the new host); an unchanged host with a changed
fingerprint, bundle path or substitution map gives a replacement with
delete_before_replace = true. -/
theorem C1_diff_decision (sha : List Char → String) (fs : String → ScriptDir)
    (olds : RemoteExecutionOutputs) (news : RemoteExecutionInputs) :
    ((olds.script_name = news.script_name ∧
      fileSubsEq olds.file_substitutions news.file_substitutions = true ∧
      olds.script_hash = full_hash sha fs news.script_name news.shared_script_name ∧
      olds.host = news.host ∧ olds.bastion = news.bastion) →
      (diff sha fs olds news).changes = false)
    ∧ (olds.host ≠ news.host →
      (diff sha fs olds news).changes = true ∧
      (diff sha fs olds news).delete_before_replace = false)
    ∧ (olds.host = news.host →
      (olds.script_hash ≠ full_hash sha fs news.script_name news.shared_script_name ∨
        olds.script_name ≠ news.script_name ∨
        fileSubsEq olds.file_substitutions news.file_substitutions = false) →
      (diff sha fs olds news).changes = true ∧
      (diff sha fs olds news).delete_before_replace = true) := by
  refine ⟨?_, ?_, ?_⟩
  · rintro ⟨h1, h2, h3, h4, h5⟩
    have hrep : diffReplaces sha fs olds news = [] := by
      simp [diffReplaces, h1, h2, h3, h4, h5]
    simp [diff, hrep]
  · intro hh
    have hmem : ("host" : String) ∈ diffReplaces sha fs olds news := by
      simp [diffReplaces, List.mem_append, hh]
    have hne : diffReplaces sha fs olds news ≠ [] := List.ne_nil_of_mem hmem
    have hie : (diffReplaces sha fs olds news).isEmpty = false := by
      simp [List.isEmpty_iff, hne]
    constructor
    · simp [diff, hie]
    · simp [diff, hie, hh]
  · intro hp hd
    have hne : diffReplaces sha fs olds news ≠ [] := by
      rcases hd with h | h | h
      · have hmem : ("script_hash" : String) ∈ diffReplaces sha fs olds news := by
          simp [diffReplaces, List.mem_append, h]
        exact List.ne_nil_of_mem hmem
      · have hmem : ("script_name" : String) ∈ diffReplaces sha fs olds news := by
          simp [diffReplaces, List.mem_append, h]
        exact List.ne_nil_of_mem hmem
      · have hmem : ("file_substitutions" : String) ∈ diffReplaces sha fs olds news := by
          simp [diffReplaces, List.mem_append, h]
        exact List.ne_nil_of_mem hmem
    have hie : (diffReplaces sha fs olds news).isEmpty = false := by
      simp [List.isEmpty_iff, hne]
    constructor
    · simp [diff, hie]
    · simp [diff, hie, hp]

/-- Claim C1 witness: the no-change row of the decision table at the concrete
fixture record. -/
theorem C1_diff_decision_witness :
    (diff shaEx fsEx oldsEx newsEx).changes = false :=
  (C1_diff_decision shaEx fsEx oldsEx newsEx).1
    ⟨by decide, by decide, by decide, by decide, by decide⟩

/-- Claim C6 counterexample: stored record and new inputs agreeing on every
compared field except the jump-host.  The code returns a structural
replacement listing the bastion field, refuting the claim that a
jump-host-only change does not signal replacement. -/
theorem C6_counterexample :
    oldsEx.bastion ≠ newsBastionEx.bastion
    ∧ oldsEx.script_name = newsBastionEx.script_name
    ∧ fileSubsEq oldsEx.file_substitutions newsBastionEx.file_substitutions = true
    ∧ oldsEx.script_hash
      = full_hash shaEx fsEx newsBastionEx.script_name newsBastionEx.shared_script_name
    ∧ oldsEx.host = newsBastionEx.host
    ∧ (diff shaEx fsEx oldsEx newsBastionEx).changes = true
    ∧ (diff shaEx fsEx oldsEx newsBastionEx).replaces = ["bastion"] := by
  decide

/-- Claim C6 (amended): when only the jump-host differs, diff signals a
structural replacement whose collected field list is exactly the
bastion field, with delete-before-replace ordering (the host being
unchanged). -/
theorem C6_bastion_only (sha : List Char → String) (fs : String → ScriptDir)
    (olds : RemoteExecutionOutputs) (news : RemoteExecutionInputs)
    (h1 : olds.script_name = news.script_name)
    (h2 : fileSubsEq olds.file_substitutions news.file_substitutions = true)
    (h3 : olds.script_hash = full_hash sha fs news.script_name news.shared_script_name)
    (h4 : olds.host = news.host)
    (h5 : olds.bastion ≠ news.bastion) :
    (diff sha fs olds news).changes = true
    ∧ (diff sha fs olds news).replaces = ["bastion"]
    ∧ (diff sha fs olds news).delete_before_replace = true := by
  have hrep : diffReplaces sha fs olds news = ["bastion"] := by
    simp [diffReplaces, h1, h2, h3, h4, h5]
  refine ⟨?_, ?_, ?_⟩ <;> simp [diff, hrep, h4]

/-- Claim C6 witness: the amended statement at the concrete fixture record
differing only in the jump-host. -/
theorem C6_bastion_only_witness :
    (diff shaEx fsEx oldsEx newsBastionEx).changes = true
    ∧ (diff shaEx fsEx oldsEx newsBastionEx).replaces = ["bastion"]
    ∧ (diff shaEx fsEx oldsEx newsBastionEx).delete_before_replace = true :=
  C6_bastion_only shaEx fsEx oldsEx newsBastionEx (by decide) (by decide) (by decide)
    (by decide) (by decide)

/-- Claim C10: the fingerprint hashes only the concatenation of file contents
in traversal order — no names, no directory structure — so two bundles
with equal content streams (for example after renaming a file or moving
bytes across a file boundary) have equal fingerprints and the
fingerprint comparison contributes no replacement. -/
theorem C10_hash_ignores_structure (sha : List Char → String) (fs : String → ScriptDir)
    (d1 : ScriptDir) (olds : RemoteExecutionOutputs) (news : RemoteExecutionInputs)
    (hstream : dirStream (fs news.script_name) = dirStream d1)
    (hshared : news.shared_script_name = none)
    (hhash : olds.script_hash = hash_directory sha d1) :
    hash_directory sha (fs news.script_name) = hash_directory sha d1
    ∧ "script_hash" ∉ (diff sha fs olds news).replaces := by
  have heq : hash_directory sha (fs news.script_name) = hash_directory sha d1 := by
    rw [hash_directory_eq_stream, hash_directory_eq_stream, hstream]
  refine ⟨heq, ?_⟩
  have hcond : ¬ (olds.script_hash
      ≠ full_hash sha fs news.script_name news.shared_script_name) := by
    rw [hshared, full_hash, heq, hhash]
    exact not_not_intro rfl
  have hnot : "script_hash" ∉ diffReplaces sha fs olds news := by
    intro hmem
    rw [diffReplaces] at hmem
    rcases List.mem_append.mp hmem with hm | hm5
    rotate_left
    · exact absurd (mem_ite_singleton hm5).2 (by decide)
    rcases List.mem_append.mp hm with hm | hm4
    rotate_left
    · exact absurd (mem_ite_singleton hm4).2 (by decide)
    rcases List.mem_append.mp hm with hm | hm3
    rotate_left
    · exact absurd (mem_ite_singleton hm3).1 hcond
    rcases List.mem_append.mp hm with hm1 | hm2
    · exact absurd (mem_ite_singleton hm1).2 (by decide)
    · exact absurd (mem_ite_singleton hm2).2 (by decide)
  rw [diff]
  by_cases hie : (diffReplaces sha fs olds news).isEmpty
  · rw [if_pos hie]
    simp
  · rw [if_neg hie]
    exact hnot

/-- Claim C10 witness: under the identity digest, the one-file bundle holding
AB and the two-file bundle holding A and B in differently named files
fingerprint identically, and the diff of a record taken over the first
against inputs resolving to the second lists no fingerprint
replacement. -/
theorem C10_hash_ignores_structure_witness :
    hash_directory shaId (fsStreamEx newsEx.script_name) = hash_directory shaId dirStreamEx1
    ∧ "script_hash" ∉ (diff shaId fsStreamEx oldsStreamEx newsEx).replaces :=
  C10_hash_ignores_structure shaId fsStreamEx dirStreamEx1 oldsStreamEx newsEx
    (by decide) (by decide) (by decide)

theorem execute_remotely_hash (sha : List Char → String) (fs : String → ScriptDir)
    (readF : String → List Char) (conn : Nat → Bool) (ro : String × String)
    (rd kf : List Char) (sn : String) (S : FileSubs) (h pk : String)
    (b sh : Option String) (e : String) (o : RemoteExecutionOutputs)
    (hr : (execute_remotely sha fs readF conn ro rd kf sn S h pk b sh e).result
      = ExecResult.ok o) :
    o.script_hash = full_hash sha fs sn sh := by
  rw [execute_remotely] at hr
  cases hb : buildSingleFileScript fs readF rd kf sn S h pk b sh e with
  | none =>
    rw [hb] at hr
    exact ExecResult.noConfusion hr
  | some cmds =>
    rw [hb] at hr
    simp only [] at hr
    cases hl : retryLoop conn
        { stdout := ro.1
          stderr := ro.2
          script_name := sn
          file_substitutions := S
          script_hash := full_hash sha fs sn sh
          private_key := pk
          host := h
          bastion := b
          shared_script_name := none } 150 0 with
    | mk r1 r2 =>
      rw [hl] at hr
      cases r1 with
      | none => exact ExecResult.noConfusion hr
      | some o' =>
        have ho : o' = o := by
          have := ExecResult.ok.inj hr
          exact this
        have := retryLoop_some_outs conn _ 150 0 o' r2.1 r2.2 (by rw [hl])
        rw [← ho, this]

/-- Claim C3: the recorded fingerprint is a function of the bundle and shared
bundle contents only — two successful executions over the same bundle
paths record identical fingerprints regardless of substitution maps,
hosts and jump-hosts. -/
theorem C3_fingerprint_independence (sha : List Char → String) (fs : String → ScriptDir)
    (readF : String → List Char) (conn1 conn2 : Nat → Bool) (ro1 ro2 : String × String)
    (rd1 rd2 kf1 kf2 : List Char) (sn : String) (S1 S2 : FileSubs)
    (h1 h2 pk1 pk2 : String) (b1 b2 : Option String) (sh : Option String)
    (e1 e2 : String) (o1 o2 : RemoteExecutionOutputs)
    (hr1 : (execute_remotely sha fs readF conn1 ro1 rd1 kf1 sn S1 h1 pk1 b1 sh e1).result
      = ExecResult.ok o1)
    (hr2 : (execute_remotely sha fs readF conn2 ro2 rd2 kf2 sn S2 h2 pk2 b2 sh e2).result
      = ExecResult.ok o2) :
    o1.script_hash = o2.script_hash := by
  rw [execute_remotely_hash sha fs readF conn1 ro1 rd1 kf1 sn S1 h1 pk1 b1 sh e1 o1 hr1]
  rw [execute_remotely_hash sha fs readF conn2 ro2 rd2 kf2 sn S2 h2 pk2 b2 sh e2 o2 hr2]

/-- Claim C3 witness: a direct execution with no substitutions and a proxied
execution with substitutions, a different host and a jump-host record
the same fingerprint. -/
theorem C3_fingerprint_independence_witness : outsEx.script_hash = outsEx2.script_hash :=
  C3_fingerprint_independence shaEx fsEx (fun _ => []) (fun _ => true) (fun _ => true)
    ("", "") ("", "") [] [] [] [] ("scripts/app") [] ([(s2l ("main.sh"), [(s2l ("X"), s2l ("v"))])])
    ("10.0.0.1") ("10.0.0.9") ("key.pem") ("key.pem") none (some ("bhost")) none
    ("main.sh") ("main.sh") outsEx outsEx2 (by rfl) (by rfl)

/-- Claim C5: the first-hop connection loop makes at most 150 attempts with a
sleep of 2 seconds after each failed attempt; when the host becomes
reachable on attempt N within the bound, the execution succeeds after
exactly N attempts with N minus 1 sleeps; when no attempt succeeds the
call yields no result (it does not raise) and executes no remote
command. -/
theorem C5_retry_policy (sha : List Char → String) (fs : String → ScriptDir)
    (readF : String → List Char) (conn : Nat → Bool) (ro : String × String)
    (rd kf : List Char) (sn : String) (S : FileSubs) (h pk : String)
    (b sh : Option String) (e : String) (cmds : List Cmd) (N : Nat)
    (hbuild : buildSingleFileScript fs readF rd kf sn S h pk b sh e = some cmds) :
    ((1 ≤ N ∧ N ≤ 150 ∧ conn (N - 1) = true ∧ (∀ j, j < N - 1 → conn j = false)) →
      (∃ o, (execute_remotely sha fs readF conn ro rd kf sn S h pk b sh e).result
        = ExecResult.ok o)
      ∧ (execute_remotely sha fs readF conn ro rd kf sn S h pk b sh e).attempts = N
      ∧ (execute_remotely sha fs readF conn ro rd kf sn S h pk b sh e).sleeps
        = List.replicate (N - 1) 2
      ∧ (execute_remotely sha fs readF conn ro rd kf sn S h pk b sh e).remoteExecuted
        = true)
    ∧ ((∀ j, j < 150 → conn j = false) →
      (execute_remotely sha fs readF conn ro rd kf sn S h pk b sh e).result
        = ExecResult.noResult
      ∧ (execute_remotely sha fs readF conn ro rd kf sn S h pk b sh e).attempts = 150
      ∧ (execute_remotely sha fs readF conn ro rd kf sn S h pk b sh e).sleeps
        = List.replicate 150 2
      ∧ (execute_remotely sha fs readF conn ro rd kf sn S h pk b sh e).remoteExecuted
        = false) := by
  constructor
  · rintro ⟨hN1, hN2, hc, hf⟩
    have key : ∀ outs : RemoteExecutionOutputs,
        retryLoop conn outs 150 0 = (some outs, N - 1 + 1, List.replicate (N - 1) 2) :=
      fun outs => retryLoop_success conn outs (N - 1) 150 0 (by omega)
        (fun j hj => by simpa using hf j hj) (by simpa using hc)
    simp only [execute_remotely, hbuild, key]
    refine ⟨⟨_, rfl⟩, ?_, ?_, ?_⟩ <;> first | trivial | omega
  · intro hf
    have key : ∀ outs : RemoteExecutionOutputs,
        retryLoop conn outs 150 0 = (none, 150, List.replicate 150 2) :=
      fun outs => retryLoop_fail conn outs 150 0 (fun j hj => by simpa using hf j hj)
    simp only [execute_remotely, hbuild, key]
    refine ⟨?_, ?_, ?_, ?_⟩ <;> trivial

/-- Claim C5 witness: a target reachable on the third attempt succeeds after
exactly 3 attempts and 2 sleeps; an unreachable target exhausts all 150
attempts, yields no result and executes nothing remotely. -/
theorem C5_retry_policy_witness :
    ((∃ o, (execute_remotely shaEx fsEx (fun _ => []) (fun i => decide (2 ≤ i)) ("", "")
        [] [] ("scripts/app") [] ("10.0.0.1") ("key.pem") none none ("main.sh")).result
        = ExecResult.ok o)
      ∧ (execute_remotely shaEx fsEx (fun _ => []) (fun i => decide (2 ≤ i)) ("", "")
        [] [] ("scripts/app") [] ("10.0.0.1") ("key.pem") none none ("main.sh")).attempts = 3
      ∧ (execute_remotely shaEx fsEx (fun _ => []) (fun i => decide (2 ≤ i)) ("", "")
        [] [] ("scripts/app") [] ("10.0.0.1") ("key.pem") none none ("main.sh")).sleeps
        = List.replicate 2 2)
    ∧ ((execute_remotely shaEx fsEx (fun _ => []) (fun _ => false) ("", "")
        [] [] ("scripts/app") [] ("10.0.0.1") ("key.pem") none none ("main.sh")).result
        = ExecResult.noResult
      ∧ (execute_remotely shaEx fsEx (fun _ => []) (fun _ => false) ("", "")
        [] [] ("scripts/app") [] ("10.0.0.1") ("key.pem") none none ("main.sh")).attempts = 150
      ∧ (execute_remotely shaEx fsEx (fun _ => []) (fun _ => false) ("", "")
        [] [] ("scripts/app") [] ("10.0.0.1") ("key.pem") none none ("main.sh")).remoteExecuted
        = false) := by
  have h1 := (C5_retry_policy shaEx fsEx (fun _ => []) (fun i => decide (2 ≤ i)) ("", "")
    [] [] ("scripts/app") [] ("10.0.0.1") ("key.pem") none none ("main.sh") cmdsEx 3
    (by rfl)).1 (by refine ⟨by omega, by omega, by decide, ?_⟩; decide)
  have h2 := (C5_retry_policy shaEx fsEx (fun _ => []) (fun _ => false) ("", "")
    [] [] ("scripts/app") [] ("10.0.0.1") ("key.pem") none none ("main.sh") cmdsEx 1
    (by rfl)).2 (fun j _ => rfl)
  exact ⟨⟨h1.1, h1.2.1, h1.2.2.1⟩, h2.1, h2.2.1, h2.2.2.2⟩

/-- Claim C7 counterexample: in a bundle with entrypoint main.sh and a plain
config.txt, the emitted commands mark config.txt executable even though
it is neither the entrypoint nor explicitly marked, refuting the claim
that only the entrypoint or explicitly marked files get the executable
bit. -/
theorem C7_counterexample :
    Cmd.chmodX (s2l ("r/config.txt"))
      ∈ (write_echo_commands_for_folder dirEx (s2l ("r")) []).getD []
    ∧ s2l ("config.txt") ≠ s2l ("main.sh") := by
  decide

/-- Claim C7 (amended): the folder bundler marks every staged file executable
(it never passes mark_executable, whose default is true), and only a
file staged through the single-file writer with mark_executable false —
the jump-host private-key copy — receives no chmod command. -/
theorem C7_executable_marking (d : ScriptDir) (echoPath : List Char) (fsubs : FileSubs)
    (cs : List Cmd) (content path : List Char) (subs : SubMap) (cs2 : List Cmd)
    (hfolder : write_echo_commands_for_folder d echoPath fsubs = some cs)
    (hfile : write_echo_commands_for_file content path false subs = some cs2) :
    (∀ e ∈ d, ∀ f ∈ e.files, Cmd.chmodX (echoFilePath echoPath e.relRoot f.1) ∈ cs)
    ∧ (∀ q, Cmd.chmodX q ∉ cs2) := by
  constructor
  · intro e he f hf
    rw [write_echo_commands_for_folder] at hfolder
    cases hec : entriesCmds fsubs echoPath d with
    | none => rw [hec] at hfolder; simp at hfolder
    | some cs' =>
      rw [hec] at hfolder
      have hcs : cs = Cmd.mkdirP echoPath :: cs' := by
        simpa using hfolder.symm
      rw [hcs]
      exact List.mem_cons_of_mem _
        (entriesCmds_chmod_mem fsubs echoPath d cs' hec e he f hf)
  · exact fun q => write_echo_file_no_chmod content path subs cs2 hfile q

/-- Claim C7 witness: the amended statement at the concrete two-file bundle
and a key file staged without the executable bit. -/
theorem C7_executable_marking_witness :
    (∀ e ∈ dirEx, ∀ f ∈ e.files,
      Cmd.chmodX (echoFilePath (s2l ("r")) e.relRoot f.1) ∈ folderCsEx)
    ∧ (∀ q, Cmd.chmodX q ∉ fileCsEx) :=
  C7_executable_marking dirEx (s2l ("r")) [] folderCsEx (s2l ("KEYDATA\n"))
    (s2l ("kf")) [] fileCsEx (by rfl) (by rfl)
